import Mathlib

/-!  Verification of the media_archiver core (scheduler.py, handlers.py, main.py)
against its natural-language specification.

The embedding is shallow: each Python function that the claims touch is
translated into an executable Lean definition over explicit state.
Wall-clock time is modelled at tick granularity: one Nat-valued clock
reading stands for the whole of one Scheduler.run call (the program polls
every 5 seconds; time.time() readings inside a single pass are collapsed
to one value).  Python exceptions are modelled with Except / Option.
Python for-loops over a list that the body mutates are modelled by the
index-stepping semantics of CPython list iterators.  -/

set_option maxRecDepth 4096

namespace MediaArchiver

/-- Decidable equality on Except results, so that concrete outcomes of the
fallible operations can be checked computationally. -/
instance {ε α : Type} [DecidableEq ε] [DecidableEq α] : DecidableEq (Except ε α) :=
  fun a b =>
    match a, b with
    | .ok x, .ok y =>
      if h : x = y then .isTrue (by rw [h]) else .isFalse (fun hh => h (Except.ok.inj hh))
    | .error x, .error y =>
      if h : x = y then .isTrue (by rw [h]) else .isFalse (fun hh => h (Except.error.inj hh))
    | .ok _, .error _ => .isFalse (fun hh => Except.noConfusion hh)
    | .error _, .ok _ => .isFalse (fun hh => Except.noConfusion hh)

/-! ## Scheduler (src/scheduler.py) -/

/-- A scheduler task: dict with keys task, args, scheduled, delay
(scheduler.py line 14).  The callable and its argument tuple are
abstracted to Nat identifiers; the job's boolean outcome is supplied by
an oracle function when a tick runs. -/
structure Task where
  job : Nat
  args : Nat
  scheduled : Nat
  delay : Nat
deriving DecidableEq

/-- Scheduler._add_delayed_task called at wall-clock time now:
appends a task with scheduled = time.time() + delay. -/
def add_delayed_task (tasks : List Task) (job args now delay : Nat) : List Task :=
  tasks ++ [{ job := job, args := args, scheduled := now + delay, delay := delay }]

/-- The re-enqueued copy built on scheduler.py line 37: same job, args and
delay, rescheduled at the current time plus the original delay. -/
def reenq (now : Nat) (t : Task) : Task :=
  { t with scheduled := now + t.delay }

/-- The for-loop of Scheduler.run (scheduler.py lines 29-37), with CPython
list-iterator semantics: the iterator keeps a bare index i into the live,
mutated list; each step reads tasks[i], and the body may remove the
current element (list.remove: first occurrence equal to it) and append a
re-enqueued copy when the job returns false.  fuel counts remaining
iterator steps; since the index grows by one per step and the list never
grows longer than it started (remove before any append), fuel = initial
length is exact.  Returns (pending list afterwards, tasks invoked in
invocation order). -/
def tickLoop (exec : Task → Bool) (now : Nat) :
    Nat → List Task → Nat → List Task × List Task
  | 0, ts, _ => (ts, [])
  | fuel+1, ts, i =>
    if h : i < ts.length then
      let t := ts.get ⟨i, h⟩
      if t.scheduled < now then
        let ts2 := ts.erase t
        let ts3 := if exec t then ts2 else ts2 ++ [reenq now t]
        let r := tickLoop exec now fuel ts3 (i+1)
        (r.1, t :: r.2)
      else
        tickLoop exec now fuel ts i.succ
    else (ts, [])

/-- Scheduler.run at wall-clock time now, with job outcomes given by exec. -/
def run (exec : Task → Bool) (now : Nat) (ts : List Task) : List Task × List Task :=
  tickLoop exec now ts.length ts 0

/-! ## Type classifier (src/handlers.py: can_handle methods, handler_factory) -/

/-- What a path is on disk at classification time. -/
inductive PathKind where
  | file
  | dir
  | neither
deriving DecidableEq

/-- The observable inputs of the can_handle checks for one path: its
basename, whether it is a regular file / directory / neither, and the
type-label list the byte-signature sniffer (fleep) returns for its first
128 bytes. -/
structure PathInfo where
  baseName : String
  kind : PathKind
  sniff : List String
deriving DecidableEq

/-- The four handling strategies, in the order handler_factory scans them. -/
inductive Strategy where
  | image
  | video
  | audio
  | directory
deriving DecidableEq

/-- basename starts with the hidden-file marker (str.startswith "."). -/
def hiddenName (s : String) : Bool :=
  match s.data with
  | c :: _ => c = '.'
  | [] => false

/-- The can_handle static methods (handlers.py lines 103-109, 153-167,
221-235, 262-276).  Image / Video / Audio: must be a regular file, not
hidden, and the sniffer's first label must be in the class's label set
(empty label list rejects).  Directory: not hidden, and os.path.isdir. -/
def can_handle : Strategy → PathInfo → Bool
  | .image, i =>
    (i.kind == PathKind.file) && !hiddenName i.baseName &&
      (match i.sniff.head? with
       | some t => t == "raster-image" || t == "raw-image"
       | none => false)
  | .video, i =>
    (i.kind == PathKind.file) && !hiddenName i.baseName &&
      (match i.sniff.head? with
       | some t => t == "video"
       | none => false)
  | .audio, i =>
    (i.kind == PathKind.file) && !hiddenName i.baseName &&
      (match i.sniff.head? with
       | some t => t == "audio"
       | none => false)
  | .directory, i =>
    !hiddenName i.baseName && (i.kind == PathKind.dir)

/-- handler_factory (handlers.py lines 299-306): first match over the
fixed ordered list [Image, Video, Audio, Directory], none if no
strategy's can_handle accepts. -/
def handler_factory (i : PathInfo) : Option Strategy :=
  [Strategy.image, Strategy.video, Strategy.audio, Strategy.directory].find?
    (fun s => can_handle s i)

/-! ## Watch policy (src/main.py: should_delete) -/

/-- os.path.commonprefix on two character sequences: the longest common
character-wise leading run (not path-component aware). -/
def commonpfx : List Char → List Char → List Char
  | a :: s, b :: t => if a = b then a :: commonpfx s t else []
  | _, _ => []

/-- The test on main.py lines 75 and 80:
os.path.commonprefix((d, file_path)) == d. -/
def under (d p : String) : Bool := commonpfx d.data p.data == d.data

/-- should_delete (main.py lines 68-83): scan the managed roots first and
return True on the first whose commonprefix test hits; otherwise scan the
passive roots and return False on a hit; otherwise return False. -/
def should_delete (managed passive : List String) (p : String) : Bool :=
  if managed.any (fun d => under d p) then true
  else if passive.any (fun d => under d p) then false
  else false

/-! ## Dates (src/handlers.py: datetime values, strptime, exif, filename
patterns) -/

/-- A Python datetime.datetime value (the fields this program reads). -/
structure DT where
  year : Nat
  month : Nat
  day : Nat
  hour : Nat
  minute : Nat
  second : Nat
deriving DecidableEq

def isLeapYear (y : Nat) : Bool :=
  (y % 4 == 0 && y % 100 != 0) || y % 400 == 0

def daysInMonth (y m : Nat) : Nat :=
  if m = 2 then (if isLeapYear y then 29 else 28)
  else if m = 4 ∨ m = 6 ∨ m = 9 ∨ m = 11 then 30
  else 31

/-- The datetime.datetime constructor: validates every field and raises
ValueError (here: none) outside MINYEAR..MAXYEAR / calendar ranges. -/
def mkPyDatetime (y m d h mi sec : Nat) : Option DT :=
  if 1 ≤ y ∧ y ≤ 9999 ∧ 1 ≤ m ∧ m ≤ 12 ∧ 1 ≤ d ∧ d ≤ daysInMonth y m
      ∧ h ≤ 23 ∧ mi ≤ 59 ∧ sec ≤ 59 then
    some ⟨y, m, d, h, mi, sec⟩
  else none

/-- Read exactly n decimal digits, most significant first. -/
def grabDigits : Nat → Nat → List Char → Option (Nat × List Char)
  | 0, acc, s => some (acc, s)
  | _+1, _, [] => none
  | n+1, acc, c :: s =>
    if c.isDigit then grabDigits n (acc * 10 + (c.toNat - 48)) s else none

/-- A two-or-one digit numeric field of CPython strptime (e.g. %m is
1[0-2]|0[1-9]|[1-9]).  In the two formats this program uses, every such
field is followed by a non-digit separator or by end-of-input, so the
regex alternation reduces to: if two digits are present the two-digit
value must pass ok2, otherwise a single digit must pass ok1. -/
def pField2 (ok2 ok1 : Nat → Bool) : List Char → Option (Nat × List Char)
  | a :: b :: rest =>
    if a.isDigit && b.isDigit then
      let v := (a.toNat - 48) * 10 + (b.toNat - 48)
      if ok2 v then some (v, rest) else none
    else if a.isDigit && ok1 (a.toNat - 48) then some (a.toNat - 48, b :: rest)
    else none
  | [a] => if a.isDigit && ok1 (a.toNat - 48) then some (a.toNat - 48, []) else none
  | [] => none

/-- Consume one literal character. -/
def pLit (c : Char) : List Char → Option (List Char)
  | x :: s => if x = c then some s else none
  | [] => none

def dropWs : List Char → List Char
  | c :: s => if c.isWhitespace then dropWs s else c :: s
  | [] => []

/-- One-or-more whitespace characters (a space in a strptime format
matches a whitespace run). -/
def pSpaces1 : List Char → Option (List Char)
  | c :: s => if c.isWhitespace then some (dropWs s) else none
  | [] => none

/-- CPython strptime for the format "%Y sep %m sep %d %H:%M:%S":
%Y is exactly four digits; %m, %d, %H, %M, %S follow the TimeRE
alternations (month 1-12, day 1-31, hour 0-23, minute 0-59, second 0-61);
the whole string must be consumed. -/
def strptimeYmdHMS (sep : Char) (s : List Char) : Option (Nat × Nat × Nat × Nat × Nat × Nat) :=
  (grabDigits 4 0 s).bind fun ys =>
  (pLit sep ys.2).bind fun s2 =>
  (pField2 (fun v => decide (1 ≤ v ∧ v ≤ 12)) (fun v => decide (1 ≤ v ∧ v ≤ 9)) s2).bind fun ms =>
  (pLit sep ms.2).bind fun s4 =>
  (pField2 (fun v => decide (1 ≤ v ∧ v ≤ 31)) (fun v => decide (1 ≤ v ∧ v ≤ 9)) s4).bind fun ds =>
  (pSpaces1 ds.2).bind fun s6 =>
  (pField2 (fun v => decide (v ≤ 23)) (fun _ => true) s6).bind fun hs =>
  (pLit ':' hs.2).bind fun s8 =>
  (pField2 (fun v => decide (v ≤ 59)) (fun _ => true) s8).bind fun mis =>
  (pLit ':' mis.2).bind fun s10 =>
  (pField2 (fun v => decide (v ≤ 61)) (fun _ => true) s10).bind fun secs =>
  if secs.2 = [] then some (ys.1, ms.1, ds.1, hs.1, mis.1, secs.1) else none

/-- datetime.datetime.strptime(s, "%Y?%m?%d %H:%M:%S") with ? the given
date separator; none models a raised ValueError (regex mismatch,
unconverted trailing data, or an out-of-range calendar value caught by
the datetime constructor). -/
def pyStrptime (sep : Char) (s : String) : Option DT :=
  match strptimeYmdHMS sep s.data with
  | none => none
  | some (y, m, d, h, mi, sec) => mkPyDatetime y m d h mi sec

/-- Image._exif_datetime (handlers.py lines 169-183).  The input collapses
the external read: none when PIL raised or _getexif() gave a falsy
mapping or the DateTimeOriginal tag is absent; some dt for the tag's
string value.  The code rejects a falsy (empty) value and the zero
sentinel, then tries the colon-delimited format and, on ValueError, the
hyphen-delimited one; a ValueError from that second call is NOT caught,
so .error models an exception escaping _exif_datetime. -/
def exif_datetime (tag : Option String) : Except Unit (Option DT) :=
  match tag with
  | none => .ok none
  | some dt =>
    if dt ≠ "" ∧ dt ≠ "0000:00:00 00:00:00" then
      match pyStrptime ':' dt with
      | some d => .ok (some d)
      | none =>
        match pyStrptime '-' dt with
        | some d => .ok (some d)
        | none => .error ()
    else .ok none

/-- Tokens of the filename regexes other than the (year)(month)(day)
group: a literal character, the dot wildcard, a single digit, or a
one-or-more digit run. -/
inductive PTok where
  | lit (c : Char)
  | anyChar
  | digit
  | digitsPlus
deriving DecidableEq

/-- Regex matching for a token list against a character list, with
backtracking for digitsPlus; when anchored, the input must be consumed
exactly, otherwise a matching front suffices.  The dot wildcard matches
any character except a newline. -/
def matchToks : List PTok → Bool → List Char → Bool
  | [], true, s => s.isEmpty
  | [], false, _ => true
  | _ :: _, _, [] => false
  | PTok.lit c :: ts, e, x :: s => x = c && matchToks ts e s
  | PTok.anyChar :: ts, e, x :: s => x ≠ '\n' && matchToks ts e s
  | PTok.digit :: ts, e, x :: s => x.isDigit && matchToks ts e s
  | PTok.digitsPlus :: ts, e, x :: s =>
    x.isDigit && (matchToks (PTok.digitsPlus :: ts) e s || matchToks ts e s)

/-- One entry of FILENAME_DATE_REGEX.  Every pattern in handlers.py is a
fixed literal front, then the contiguous named groups
(year)(month)(day) as [0-9]{4}[0-9]{2}[0-9]{2}, then a token tail;
anchorEnd records a trailing dollar. -/
structure FPat where
  front : List Char
  tail : List PTok
  anchorEnd : Bool

/-- Strip an exact literal front. -/
def stripLit : List Char → List Char → Option (List Char)
  | [], s => some s
  | _ :: _, [] => none
  | c :: f, x :: s => if x = c then stripLit f s else none

/-- Match a pattern at position 0 (re.match) and extract the year, month
and day groups.  The literal front and the three fixed-width digit
groups leave no alternation, so the groups re.search finds (leftmost
match, position 0) are exactly these. -/
def fpatExtract (p : FPat) (s : List Char) : Option (Nat × Nat × Nat) :=
  (stripLit p.front s).bind fun s1 =>
  (grabDigits 4 0 s1).bind fun ys =>
  (grabDigits 2 0 ys.2).bind fun ms =>
  (grabDigits 2 0 ms.2).bind fun ds =>
  if matchToks p.tail p.anchorEnd ds.2 then some (ys.1, ms.1, ds.1) else none

def fpatMatch (p : FPat) (s : List Char) : Bool :=
  (fpatExtract p s).isSome

/-- Shorthand for a token tail: digits n c means n single-digit tokens. -/
def digitToks (n : Nat) : List PTok := List.replicate n PTok.digit

/-- FILENAME_DATE_REGEX (handlers.py lines 35-52), in source order.  The
unescaped dot before each extension is the wildcard; the Screenshot
pattern has no end anchor. -/
def FILENAME_DATE_REGEX : List FPat :=
  [ -- IMG-YYYYMMDD-WA____.jpeg
    ⟨"IMG-".data, [PTok.lit '-', PTok.lit 'W', PTok.lit 'A'] ++ digitToks 4
        ++ [PTok.anyChar, PTok.lit 'j', PTok.lit 'p', PTok.lit 'e', PTok.lit 'g'], true⟩,
    -- IMG-YYYYMMDD-WA____.jpg
    ⟨"IMG-".data, [PTok.lit '-', PTok.lit 'W', PTok.lit 'A'] ++ digitToks 4
        ++ [PTok.anyChar, PTok.lit 'j', PTok.lit 'p', PTok.lit 'g'], true⟩,
    -- IMG_YYYYMMDD_______.jpg
    ⟨"IMG_".data, [PTok.lit '_'] ++ digitToks 6
        ++ [PTok.anyChar, PTok.lit 'j', PTok.lit 'p', PTok.lit 'g'], true⟩,
    -- IMG_YYYYMMDD_______~N.jpg
    ⟨"IMG_".data, [PTok.lit '_'] ++ digitToks 6 ++ [PTok.lit '~', PTok.digitsPlus]
        ++ [PTok.anyChar, PTok.lit 'j', PTok.lit 'p', PTok.lit 'g'], true⟩,
    -- YYYYMMDD_______.jpg
    ⟨[], [PTok.lit '_'] ++ digitToks 6
        ++ [PTok.anyChar, PTok.lit 'j', PTok.lit 'p', PTok.lit 'g'], true⟩,
    -- YYYYMMDD_______(N).jpg
    ⟨[], [PTok.lit '_'] ++ digitToks 6 ++ [PTok.lit '(', PTok.digitsPlus, PTok.lit ')']
        ++ [PTok.anyChar, PTok.lit 'j', PTok.lit 'p', PTok.lit 'g'], true⟩,
    -- YYYYMMDD_________NNN.jpg
    ⟨[], [PTok.lit '_'] ++ digitToks 6 ++ [PTok.lit '_'] ++ digitToks 3
        ++ [PTok.anyChar, PTok.lit 'j', PTok.lit 'p', PTok.lit 'g'], true⟩,
    -- Screenshot_YYYYMMDD-______.png (no end anchor)
    ⟨"Screenshot_".data, [PTok.lit '-'] ++ digitToks 6
        ++ [PTok.anyChar, PTok.lit 'p', PTok.lit 'n', PTok.lit 'g'], false⟩,
    -- YYYYMMDD_______.mp4
    ⟨[], [PTok.lit '_'] ++ digitToks 6
        ++ [PTok.anyChar, PTok.lit 'm', PTok.lit 'p', PTok.lit '4'], true⟩,
    -- YYYYMMDD________N.mp4
    ⟨[], [PTok.lit '_'] ++ digitToks 6 ++ [PTok.lit '_', PTok.digitsPlus]
        ++ [PTok.anyChar, PTok.lit 'm', PTok.lit 'p', PTok.lit '4'], true⟩,
    -- YYYYMMDD_______(N).mp4
    ⟨[], [PTok.lit '_'] ++ digitToks 6 ++ [PTok.lit '(', PTok.digitsPlus, PTok.lit ')']
        ++ [PTok.anyChar, PTok.lit 'm', PTok.lit 'p', PTok.lit '4'], true⟩,
    -- VID-YYYYMMDD-WA____.mp4
    ⟨"VID-".data, [PTok.lit '-', PTok.lit 'W', PTok.lit 'A'] ++ digitToks 4
        ++ [PTok.anyChar, PTok.lit 'm', PTok.lit 'p', PTok.lit '4'], true⟩ ]

/-- datetime_from_filename (handlers.py lines 54-59): the first extractor
whose match accepts supplies the result; its get_datetime builds
datetime(year, month, day) from the groups, which raises (.error) on an
invalid calendar date; no accepting extractor gives .ok none. -/
def datetime_from_filename (fileName : String) : Except Unit (Option DT) :=
  match FILENAME_DATE_REGEX.find? (fun p => fpatMatch p fileName.data) with
  | none => .ok none
  | some p =>
    match fpatExtract p fileName.data with
    | none => .ok none
    | some (y, m, d) =>
      match mkPyDatetime y m d 0 0 0 with
      | some dt => .ok (some dt)
      | none => .error ()

/-- Image.get_date (handlers.py lines 185-202): exif first, then the
filename patterns, then the filesystem modification time; an exception
from either extractor propagates. -/
def get_date (tag : Option String) (fileName : String) (modified_time : DT) :
    Except Unit DT :=
  match exif_datetime tag with
  | .error e => .error e
  | .ok (some d) => .ok d
  | .ok none =>
    match datetime_from_filename fileName with
    | .error e => .error e
    | .ok (some d) => .ok d
    | .ok none => .ok modified_time

/-! ## Archive placement (src/handlers.py: _get_outdir, move, Image.run) -/

/-- A filesystem path as its component list. -/
abbrev FPath := List String

/-- The flat filesystem view the placement code reads and writes: which
paths are regular files and which are directories. -/
structure FS where
  files : List FPath
  dirs : List FPath
deriving DecidableEq

def fsIsFile (fs : FS) (p : FPath) : Bool := fs.files.contains p
def fsIsDir (fs : FS) (p : FPath) : Bool := fs.dirs.contains p
def fsExists (fs : FS) (p : FPath) : Bool := fsIsFile fs p || fsIsDir fs p

/-- Zero-left-pad the decimal form of n to width w. -/
def padZ (w n : Nat) : String :=
  let s := toString n
  String.mk (List.replicate (w - s.length) '0') ++ s

/-- OUT_DIR_FORMAT = "{0:0>4}-{1:0>2}" applied to (year, month). -/
def bucketOf (d : DT) : String := padZ 4 d.year ++ "-" ++ padZ 2 d.month

/-- The nonempty component-list forefronts of p, shortest first (the
directories os.makedirs would create). -/
def pseq (p : FPath) : List FPath :=
  (List.range p.length).map (fun k => p.take (k+1))

/-- os.makedirs: creates every missing ancestor directory and the target;
raises (.error) when a regular file occupies any of those paths. -/
def makedirs (fs : FS) (p : FPath) : Except Unit FS :=
  if (pseq p).any (fun q => fs.files.contains q) then .error ()
  else .ok { fs with dirs := pseq p ++ fs.dirs }

/-- Handler._get_outdir (handlers.py lines 89-95): join the output root
with the year-month bucket name, create it unless it already exists as a
directory, and return it. -/
def get_outdir (fs : FS) (out_dir : FPath) (d : DT) : Except Unit (FS × FPath) :=
  let out := out_dir ++ [bucketOf d]
  if !fsExists fs out || !fsIsDir fs out then
    match makedirs fs out with
    | .error e => .error e
    | .ok fs1 => .ok (fs1, out)
  else .ok (fs, out)

/-- move (handlers.py lines 62-68): shutil.move when delete, else
shutil.copy2 (source left in place). -/
def move (fs : FS) (src dst : FPath) (delete : Bool) : FS :=
  if delete then { fs with files := dst :: fs.files.erase src }
  else { fs with files := dst :: fs.files }

/-- Image.run (handlers.py lines 204-213) with the date already resolved:
compute the bucket, no-op returning done when a file with the same base
name is already there, otherwise move/copy and return done.  (Video.run
and Audio.run are textually identical.) -/
def image_run (fs : FS) (path : FPath) (file_name : String) (out_dir : FPath)
    (delete : Bool) (d : DT) : Except Unit (FS × Bool) :=
  match get_outdir fs out_dir d with
  | .error e => .error e
  | .ok (fs1, out) =>
    if fsIsFile fs1 (out ++ [file_name]) then .ok (fs1, true)
    else .ok (move fs1 path (out ++ [file_name]) delete, true)

/-! ## Directory reaper (src/handlers.py: Directory.run) -/

/-- A directory subtree: regular files carry the sniffer label list used
when the classifier looks at them during a scan. -/
inductive Entry where
  | file (name : String) (ftype : List String)
  | dir (name : String) (children : List Entry)

def entryName : Entry → String
  | .file n _ => n
  | .dir n _ => n

def isFileE : Entry → Bool
  | .file _ _ => true
  | .dir _ _ => false

mutual

def esizeE : Entry → Nat
  | .file _ _ => 1
  | .dir _ cs => 1 + esizeL cs

def esizeL : List Entry → Nat
  | [] => 0
  | c :: cs => esizeE c + esizeL cs

end

mutual

/-- Number of regular files anywhere in a subtree. -/
def filesInE : Entry → Nat
  | .file _ _ => 1
  | .dir _ cs => filesInL cs

def filesInL : List Entry → Nat
  | [] => 0
  | c :: cs => filesInE c + filesInL cs

end

mutual

/-- recursive_rm_dirs (handlers.py lines 121-135) as a tree transform:
recursively reap each child subtree bottom-up, then delete this
directory (return none) exactly when nothing is left in it.  The outer
os.walk in the source revisits surviving subdirectories after the
recursion already processed them; by then every subtree free of regular
files is already gone and a surviving directory still lists a child, so
those extra visits delete nothing further. -/
def recursive_rm_dirs : Entry → Option Entry
  | .file n ft => some (.file n ft)
  | .dir n cs =>
    match rm_dirs_list cs with
    | [] => none
    | cs1 => some (.dir n cs1)

def rm_dirs_list : List Entry → List Entry
  | [] => []
  | c :: cs =>
    match recursive_rm_dirs c with
    | none => rm_dirs_list cs
    | some c1 => c1 :: rm_dirs_list cs

end

/-- Directory.run (handlers.py lines 111-144): done immediately when
deletion is disabled or the target is already gone; otherwise run the
bottom-up pass and report done exactly when the root no longer exists.
The target is none when the path does not exist. -/
def Directory_run (delete : Bool) (target : Option Entry) : Option Entry × Bool :=
  if !delete then (target, true)
  else
    match target with
    | none => (none, true)
    | some e =>
      match recursive_rm_dirs e with
      | none => (none, true)
      | some e1 => (some e1, false)

/-! ## Event router (src/main.py: schedule_entry, walk_dir) -/

/-- DIR_RUN_DELAY = 1 * 60 (handlers.py line 17). -/
def DIR_RUN_DELAY : Nat := 60

/-- The delay field a freshly constructed handler carries: DIR_RUN_DELAY
for Directory (handlers.py line 101), 0 for the file handlers
(handlers.py line 78). -/
def delayOf : Strategy → Nat
  | .directory => DIR_RUN_DELAY
  | _ => 0

/-- The PathInfo the classifier sees for a tree entry. -/
def infoOf : Entry → PathInfo
  | .file n ft => ⟨n, PathKind.file, ft⟩
  | .dir n _ => ⟨n, PathKind.dir, []⟩

def classifyEntry (e : Entry) : Option Strategy :=
  handler_factory (infoOf e)

/-- One scheduler submission: the path it is for and the delay used. -/
structure Submission where
  path : FPath
  delay : Nat
deriving DecidableEq

/-- schedule_entry (main.py lines 55-65): classify the path; no handler
means no submission; otherwise submit one task, delayed by the handler's
delay field (add_delayed_task when nonzero, add_task when zero — both
enqueue exactly one task at now + delay). -/
def schedule_entry (p : FPath) (e : Entry) : List Submission :=
  match classifyEntry e with
  | none => []
  | some s => [⟨p, delayOf s⟩]

def childDirs (cs : List Entry) : List Entry := cs.filter (fun c => !isFileE c)
def childFiles (cs : List Entry) : List Entry := cs.filter isFileE

/-- os.walk(p) over the subtree rooted at full path p, top down: yield
(root, its directory children, its file children), then walk each
directory child.  fuel bounds the recursion depth; esizeE exceeds the
height of every subtree, so walkT below always supplies enough. -/
def walkTF : Nat → FPath → Entry → List (FPath × List Entry × List Entry)
  | 0, _, _ => []
  | _+1, _, .file _ _ => []
  | fuel+1, p, .dir _ cs =>
    (p, childDirs cs, childFiles cs) ::
      (childDirs cs).flatMap (fun c => walkTF fuel (p ++ [entryName c]) c)

def walkT (p : FPath) (e : Entry) : List (FPath × List Entry × List Entry) :=
  walkTF (esizeE e) p e

/-- walk_dir (main.py lines 107-118): iterate os.walk of the tree and,
for every yielded root, schedule each directory child AND recurse
walk_dir into it, then schedule each file child.  Both the walk and the
manual recursion traverse nested levels, so nested entries are scheduled
repeatedly.  fuel bounds the recursion depth as in walkTF. -/
def walkDirF : Nat → FPath → Entry → List Submission
  | 0, _, _ => []
  | fuel+1, p, e =>
    (walkT p e).flatMap fun rdf =>
      (rdf.2.1.flatMap fun d =>
        schedule_entry (rdf.1 ++ [entryName d]) d ++
          walkDirF fuel (rdf.1 ++ [entryName d]) d)
      ++ rdf.2.2.flatMap fun f => schedule_entry (rdf.1 ++ [entryName f]) f

def walk_dir (p : FPath) (e : Entry) : List Submission :=
  walkDirF (esizeE e) p e

/-! ## Scheduler properties -/

/-- Every task a tick invokes was due: its scheduled time is strictly
before the tick's clock reading. -/
theorem tickLoop_ran_due (exec : Task → Bool) (now : Nat) :
    ∀ fuel ts i t, t ∈ (tickLoop exec now fuel ts i).2 → t.scheduled < now := by
  intro fuel
  induction fuel with
  | zero => intro ts i t ht; simp [tickLoop] at ht
  | succ n ih =>
    intro ts i t ht
    by_cases h : i < ts.length
    · by_cases hd : (ts.get ⟨i, h⟩).scheduled < now
      · simp only [tickLoop, dif_pos h, if_pos hd, List.mem_cons] at ht
        rcases ht with h1 | h2
        · rw [h1]; exact hd
        · exact ih _ _ t h2
      · simp only [tickLoop, dif_pos h, if_neg hd] at ht
        exact ih _ _ t ht
    · simp only [tickLoop, dif_neg h] at ht
      simp at ht

/-- Every task left pending after a tick is either an original pending
task or the re-enqueued copy of an invoked task whose job returned
false. -/
theorem tickLoop_pending_mem (exec : Task → Bool) (now : Nat) :
    ∀ fuel ts i u, u ∈ (tickLoop exec now fuel ts i).1 →
      u ∈ ts ∨ ∃ t, t ∈ (tickLoop exec now fuel ts i).2 ∧ exec t = false ∧ u = reenq now t := by
  intro fuel
  induction fuel with
  | zero => intro ts i u hu; simp [tickLoop] at hu ⊢; exact hu
  | succ n ih =>
    intro ts i u hu
    by_cases h : i < ts.length
    · by_cases hd : (ts.get ⟨i, h⟩).scheduled < now
      · simp only [tickLoop, dif_pos h, if_pos hd] at hu ⊢
        rcases ih _ _ u hu with h1 | ⟨t, htmem, hex, hre⟩
        · by_cases he : exec (ts.get ⟨i, h⟩)
          · rw [if_pos he] at h1
            exact Or.inl (List.mem_of_mem_erase h1)
          · rw [if_neg he] at h1
            rcases List.mem_append.mp h1 with h2 | h2
            · exact Or.inl (List.mem_of_mem_erase h2)
            · refine Or.inr ⟨ts.get ⟨i, h⟩, List.mem_cons_self _ _, ?_, ?_⟩
              · exact Bool.eq_false_iff.mpr he
              · simpa using h2
        · exact Or.inr ⟨t, List.mem_cons_of_mem _ htmem, hex, hre⟩
      · simp only [tickLoop, dif_pos h, if_neg hd] at hu ⊢
        exact ih _ _ u hu
    · simp only [tickLoop, dif_neg h] at hu
      exact Or.inl hu

/-- C1: a task submitted with delay D is scheduled at submission time
plus D and is never invoked by a tick whose clock has not strictly
passed that instant; when an invoked job returns false, the pending set
afterwards holds a re-enqueued copy carrying the original delay,
rescheduled at the invoking tick's time plus that delay, which is not
invoked within the same tick and is invoked by a later tick only after
the original delay has again fully elapsed. -/
theorem C1_scheduler_never_early (exec exec2 : Task → Bool) (now now2 s D j a : Nat)
    (ts ts0 : List Task) :
    (∀ u, u ∈ add_delayed_task ts0 j a s D → u ∈ ts0 ∨ (u.scheduled = s + D ∧ u.delay = D))
    ∧ (∀ t, t ∈ (run exec now ts).2 → t.scheduled < now)
    ∧ (∀ u, u ∈ (run exec now ts).1 → u ∉ ts →
        ∃ t, t ∈ (run exec now ts).2 ∧ exec t = false ∧ u = reenq now t ∧
          u.delay = t.delay ∧ u.scheduled = now + t.delay ∧
          u ∉ (run exec now ts).2 ∧
          (u ∈ (run exec2 now2 (run exec now ts).1).2 → now + t.delay < now2)) := by
  refine ⟨?_, ?_, ?_⟩
  · intro u hu
    rcases List.mem_append.mp hu with h | h
    · exact Or.inl h
    · simp only [List.mem_singleton] at h
      subst h; exact Or.inr ⟨rfl, rfl⟩
  · intro t ht
    exact tickLoop_ran_due exec now _ ts 0 t ht
  · intro u hu hnot
    rcases tickLoop_pending_mem exec now _ ts 0 u hu with h | ⟨t, htmem, hex, hre⟩
    · exact absurd h hnot
    · refine ⟨t, htmem, hex, hre, ?_, ?_, ?_, ?_⟩
      · rw [hre]; rfl
      · rw [hre]; rfl
      · intro hran
        have hlt := tickLoop_ran_due exec now _ ts 0 u hran
        rw [hre] at hlt
        simp only [reenq] at hlt
        omega
      · intro hran2
        have hlt := tickLoop_ran_due exec2 now2 _ (run exec now ts).1 0 u hran2
        rw [hre] at hlt
        simpa [reenq] using hlt

/-- Witness for C1: one pending task with delay 7, due at clock 10 and
failing, is re-enqueued at 10 + 7 with its delay intact. -/
theorem C1_scheduler_never_early_witness :
    ((⟨1, 2, 17, 7⟩ : Task) ∈ (run (fun _ => false) 10 [⟨1, 2, 3, 7⟩]).1)
    ∧ ((⟨1, 2, 17, 7⟩ : Task) ∉ [(⟨1, 2, 3, 7⟩ : Task)])
    ∧ (∃ t, t ∈ (run (fun _ => false) 10 [⟨1, 2, 3, 7⟩]).2 ∧ (fun _ => false) t = false ∧
        (⟨1, 2, 17, 7⟩ : Task) = reenq 10 t ∧
        (⟨1, 2, 17, 7⟩ : Task).delay = t.delay ∧
        (⟨1, 2, 17, 7⟩ : Task).scheduled = 10 + t.delay ∧
        (⟨1, 2, 17, 7⟩ : Task) ∉ (run (fun _ => false) 10 [⟨1, 2, 3, 7⟩]).2 ∧
        ((⟨1, 2, 17, 7⟩ : Task) ∈
            (run (fun _ => false) 25 (run (fun _ => false) 10 [⟨1, 2, 3, 7⟩]).1).2 →
          10 + t.delay < 25)) :=
  ⟨by decide, by decide,
    (C1_scheduler_never_early (fun _ => false) (fun _ => false) 10 25 0 0 0 0
        [⟨1, 2, 3, 7⟩] []).2.2 ⟨1, 2, 17, 7⟩ (by decide) (by decide)⟩

/-- C2: evaluation at the failing input.  Two tasks are pending and both
are due (scheduled 0, clock 5); one tick invokes and removes only the
first: removing the current element shifts the list under the live
iterator index, so the equally due second task is neither visited nor
invoked and stays pending, although the claim requires every task to be
visited once and every due task to be invoked. -/
theorem C2_tick_skips_due_task :
    run (fun _ => true) 5 [⟨1, 1, 0, 0⟩, ⟨2, 2, 0, 0⟩] = ([⟨2, 2, 0, 0⟩], [⟨1, 1, 0, 0⟩])
    ∧ (⟨2, 2, 0, 0⟩ : Task).scheduled < 5 := by decide

/-! ## Classifier properties -/

/-- C6: classification returns no strategy for a hidden basename and for a
path that is neither a regular file nor a directory, whatever the sniffed
content; a directory classifies as Directory exactly when not hidden;
and the factory is first-match over the fixed ordered strategy list: a
returned strategy passes its capability check, none is returned exactly
when every strategy's check fails. -/
theorem C6_classifier (i : PathInfo) :
    (hiddenName i.baseName = true → handler_factory i = none)
    ∧ (i.kind = PathKind.neither → handler_factory i = none)
    ∧ (i.kind = PathKind.dir →
        handler_factory i = (if hiddenName i.baseName then none else some Strategy.directory))
    ∧ (∀ s, handler_factory i = some s → can_handle s i = true)
    ∧ (handler_factory i = none → ∀ s, can_handle s i = false)
    ∧ (∀ s, can_handle s i = true → handler_factory i ≠ none) := by
  refine ⟨?_, ?_, ?_, ?_, ?_, ?_⟩
  · intro h
    simp [handler_factory, List.find?, can_handle, h]
  · intro h
    simp [handler_factory, List.find?, can_handle, h,
      show (PathKind.neither == PathKind.file) = false from rfl,
      show (PathKind.neither == PathKind.dir) = false from rfl]
  · intro h
    by_cases hh : hiddenName i.baseName
    · simp [handler_factory, List.find?, can_handle, h, hh]
    · simp [handler_factory, List.find?, can_handle, h, hh,
        show (PathKind.dir == PathKind.file) = false from rfl,
        show (PathKind.dir == PathKind.dir) = true from rfl]
  · intro s hs
    simp only [handler_factory] at hs
    simpa using List.find?_some hs
  · intro h s
    simp only [handler_factory] at h
    have hall := List.find?_eq_none.mp h
    have : ¬ can_handle s i = true := by
      apply hall
      cases s <;> simp
    simpa using this
  · intro s hs hnone
    simp only [handler_factory] at hnone
    have hall := List.find?_eq_none.mp hnone
    have : ¬ can_handle s i = true := by
      apply hall
      cases s <;> simp
    exact this hs

/-- Witness for C6: a hidden video file classifies as nothing; a plain
directory entry classifies as Directory; a sniffed raster image passes
Image's check so the factory returns a strategy. -/
theorem C6_classifier_witness :
    (hiddenName ".x" = true ∧ handler_factory ⟨".x", PathKind.file, ["video"]⟩ = none)
    ∧ ((⟨"x", PathKind.dir, []⟩ : PathInfo).kind = PathKind.dir ∧
        handler_factory ⟨"x", PathKind.dir, []⟩ =
          (if hiddenName "x" then none else some Strategy.directory))
    ∧ (can_handle Strategy.image ⟨"a.jpg", PathKind.file, ["raster-image"]⟩ = true ∧
        handler_factory ⟨"a.jpg", PathKind.file, ["raster-image"]⟩ ≠ none) :=
  ⟨⟨by decide, (C6_classifier ⟨".x", PathKind.file, ["video"]⟩).1 (by decide)⟩,
   ⟨rfl, (C6_classifier ⟨"x", PathKind.dir, []⟩).2.2.1 rfl⟩,
   ⟨by decide, (C6_classifier ⟨"a.jpg", PathKind.file, ["raster-image"]⟩).2.2.2.2.2
      Strategy.image (by decide)⟩⟩

/-! ## Watch-policy properties -/

/-- The commonprefix of two character lists equals the first exactly when
the first is a prefix of the second. -/
theorem commonpfx_self_iff : ∀ d s : List Char, commonpfx d s = d ↔ d <+: s := by
  intro d
  induction d with
  | nil => intro s; cases s <;> simp [commonpfx]
  | cons a d ih =>
    intro s
    cases s with
    | nil => simp [commonpfx, List.prefix_nil]
    | cons b t =>
      by_cases hab : a = b
      · subst hab
        simp [commonpfx, ih t, List.cons_prefix_cons]
      · simp [commonpfx, hab, List.cons_prefix_cons]

/-- The commonprefix test of main.py is exactly a character-wise prefix
test. -/
theorem under_eq (d p : String) : under d p = d.data.isPrefixOf p.data := by
  rw [Bool.eq_iff_iff]
  unfold under
  rw [beq_iff_eq, List.isPrefixOf_iff_prefix]
  exact commonpfx_self_iff d.data p.data

/-- C7 counterexample: with managed root "/m" and passive root "/m/sub",
the path "/m/sub/x" is contained in both roots and the passive one is the
strictly longer prefix, so longest-prefix containment assigns the passive
(no-delete) policy; the code returns delete because it checks the managed
list first. -/
theorem C7_not_longest_containment :
    ("/m/sub".data.isPrefixOf "/m/sub/x".data = true)
    ∧ (∀ d, d ∈ ["/m"] → d.data.isPrefixOf "/m/sub/x".data = true ∧ d.length < "/m/sub".length)
    ∧ should_delete ["/m"] ["/m/sub"] "/m/sub/x" = true := by decide

/-- C7 as amended: the decision is managed-first first-match by
character-wise prefix — delete exactly when some managed root is a string
prefix of the path, no-delete otherwise, including for a path under no
root at all (total function, never an error); when no managed root and
passive root nest inside one another, at most one of the two policies can
contain a path, so the managed-first order coincides with containment. -/
theorem C7_policy_first_match (managed passive : List String) (p : String) :
    (should_delete managed passive p = managed.any (fun d => under d p))
    ∧ (∀ d, under d p = d.data.isPrefixOf p.data)
    ∧ ((∀ d1, d1 ∈ managed → ∀ d2, d2 ∈ passive →
          d1.data.isPrefixOf d2.data = false ∧ d2.data.isPrefixOf d1.data = false) →
        ¬(managed.any (fun d => under d p) = true ∧ passive.any (fun d => under d p) = true)) := by
  refine ⟨?_, ?_, ?_⟩
  · cases hm : managed.any (fun d => under d p) with
    | true => simp [should_delete, hm]
    | false =>
      cases hp : passive.any (fun d => under d p) with
      | true => simp [should_delete, hm, hp]
      | false => simp [should_delete, hm, hp]
  · intro d
    exact under_eq d p
  · rintro hnn ⟨hm, hp⟩
    rcases List.any_eq_true.mp hm with ⟨d1, hd1, hu1⟩
    rcases List.any_eq_true.mp hp with ⟨d2, hd2, hu2⟩
    rw [under_eq] at hu1 hu2
    have h1 : d1.data <+: p.data := List.isPrefixOf_iff_prefix.mp hu1
    have h2 : d2.data <+: p.data := List.isPrefixOf_iff_prefix.mp hu2
    have hcmp := List.prefix_or_prefix_of_prefix h1 h2
    rcases hnn d1 hd1 d2 hd2 with ⟨hn1, hn2⟩
    rcases hcmp with hc | hc
    · rw [← List.isPrefixOf_iff_prefix] at hc
      rw [hn1] at hc
      exact Bool.false_ne_true hc
    · rw [← List.isPrefixOf_iff_prefix] at hc
      rw [hn2] at hc
      exact Bool.false_ne_true hc

/-- Witness for C7: with non-nested roots "/a" (managed) and "/b"
(passive), the path "/a/x" triggers deletion, the commonprefix test
agrees with the character-prefix reading, and the two policies cannot
both contain one path. -/
theorem C7_policy_first_match_witness :
    (should_delete ["/a"] ["/b"] "/a/x" = ["/a"].any (fun d => under d "/a/x"))
    ∧ (∀ d1, d1 ∈ ["/a"] → ∀ d2, d2 ∈ ["/b"] →
        d1.data.isPrefixOf d2.data = false ∧ d2.data.isPrefixOf d1.data = false)
    ∧ ¬(["/a"].any (fun d => under d "/a/x") = true ∧
        ["/b"].any (fun d => under d "/a/x") = true) :=
  ⟨(C7_policy_first_match ["/a"] ["/b"] "/a/x").1, by decide,
   (C7_policy_first_match ["/a"] ["/b"] "/a/x").2.2 (by decide)⟩

/-! ## Date-resolution properties -/

/-- C3: Image date precedence.  A successfully parsed, non-sentinel
embedded timestamp is returned no matter what the filename or the
modification time are; with no embedded timestamp, a filename-pattern
date is returned when one matches, the modification time otherwise; and
the worked example: IMG_20200401_170719.jpg yields the calendar date
2020-04-01 (midnight, no time-of-day from filename patterns). -/
theorem C3_image_date_precedence (tag : Option String) (fn : String) (mt : DT) :
    (∀ e, exif_datetime tag = .ok (some e) → get_date tag fn mt = .ok e)
    ∧ (exif_datetime tag = .ok none →
        ∀ d0, datetime_from_filename fn = .ok (some d0) → get_date tag fn mt = .ok d0)
    ∧ (exif_datetime tag = .ok none → datetime_from_filename fn = .ok none →
        get_date tag fn mt = .ok mt)
    ∧ datetime_from_filename "IMG_20200401_170719.jpg" = .ok (some ⟨2020, 4, 1, 0, 0, 0⟩) := by
  refine ⟨?_, ?_, ?_, by decide⟩
  · intro e he
    simp [get_date, he]
  · intro he d0 hd
    simp [get_date, he, hd]
  · intro he hd
    simp [get_date, he, hd]

/-- Witness for C3: an embedded timestamp wins although the filename
carries a different, pattern-matching date. -/
theorem C3_image_date_precedence_witness :
    exif_datetime (some "2033:12:25 10:20:30") = .ok (some ⟨2033, 12, 25, 10, 20, 30⟩)
    ∧ get_date (some "2033:12:25 10:20:30") "IMG_20200401_170719.jpg" ⟨1999, 1, 2, 0, 0, 0⟩ =
        .ok ⟨2033, 12, 25, 10, 20, 30⟩ :=
  ⟨by decide,
   (C3_image_date_precedence (some "2033:12:25 10:20:30") "IMG_20200401_170719.jpg"
      ⟨1999, 1, 2, 0, 0, 0⟩).1 ⟨2033, 12, 25, 10, 20, 30⟩ (by decide)⟩

/-- C9 counterexample: an embedded value that parses under neither
date-time format makes date resolution raise (the second strptime call
is outside every try block), even though the filename carries a usable
pattern date the claim says it would fall through to. -/
theorem C9_unparseable_exif_raises :
    exif_datetime (some "not a date") = .error ()
    ∧ get_date (some "not a date") "IMG_20200401_170719.jpg" ⟨1999, 1, 2, 0, 0, 0⟩ = .error ()
    ∧ datetime_from_filename "IMG_20200401_170719.jpg" = .ok (some ⟨2020, 4, 1, 0, 0, 0⟩) := by
  decide

/-- C9 as amended: a present embedded value equal to the zero sentinel is
rejected (resolution falls through); the colon-delimited format is
accepted, and the hyphen-delimited format is accepted when the colon one
fails; but a non-empty, non-sentinel value that parses under neither
format raises an error that propagates out of date resolution instead of
falling through to the filename pattern or the modification time. -/
theorem C9_exif_format_handling (s : String) (d0 : DT) :
    (exif_datetime (some "0000:00:00 00:00:00") = .ok none)
    ∧ (s ≠ "" → s ≠ "0000:00:00 00:00:00" → pyStrptime ':' s = some d0 →
        exif_datetime (some s) = .ok (some d0))
    ∧ (s ≠ "" → s ≠ "0000:00:00 00:00:00" → pyStrptime ':' s = none →
        pyStrptime '-' s = some d0 → exif_datetime (some s) = .ok (some d0))
    ∧ (s ≠ "" → s ≠ "0000:00:00 00:00:00" → pyStrptime ':' s = none →
        pyStrptime '-' s = none →
        exif_datetime (some s) = .error () ∧ ∀ fn mt, get_date (some s) fn mt = .error ()) := by
  refine ⟨by decide, ?_, ?_, ?_⟩
  · intro h1 h2 hc
    simp [exif_datetime, h1, h2, hc]
  · intro h1 h2 hc hh
    simp [exif_datetime, h1, h2, hc, hh]
  · intro h1 h2 hc hh
    have he : exif_datetime (some s) = .error () := by
      simp [exif_datetime, h1, h2, hc, hh]
    refine ⟨he, ?_⟩
    intro fn mt
    simp [get_date, he]

/-- Witness for C9: the hyphen-delimited embedded format is accepted after
the colon-delimited parse fails. -/
theorem C9_exif_format_handling_witness :
    ("2020-04-01 17:07:19" : String) ≠ ""
    ∧ ("2020-04-01 17:07:19" : String) ≠ "0000:00:00 00:00:00"
    ∧ pyStrptime ':' "2020-04-01 17:07:19" = none
    ∧ pyStrptime '-' "2020-04-01 17:07:19" = some ⟨2020, 4, 1, 17, 7, 19⟩
    ∧ exif_datetime (some "2020-04-01 17:07:19") = .ok (some ⟨2020, 4, 1, 17, 7, 19⟩) :=
  ⟨by decide, by decide, by decide, by decide,
   (C9_exif_format_handling "2020-04-01 17:07:19" ⟨2020, 4, 1, 17, 7, 19⟩).2.2.1
     (by decide) (by decide) (by decide) (by decide)⟩

/-! ## Placement properties -/

theorem pseq_self_mem (p : FPath) (hp : p ≠ []) : p ∈ pseq p := by
  have hl : 0 < p.length := List.length_pos.mpr hp
  refine List.mem_map.mpr ⟨p.length - 1, List.mem_range.mpr (by omega), ?_⟩
  have hs : p.length - 1 + 1 = p.length := by omega
  rw [hs, List.take_length]

theorem move_dirs (fs : FS) (src dst : FPath) (del : Bool) :
    (move fs src dst del).dirs = fs.dirs := by
  cases del <;> simp [move]

/-- A successful _get_outdir leaves the file set untouched and ends with
the returned bucket present as a directory. -/
theorem get_outdir_ok_props (fs fs1 : FS) (od out : FPath) (d : DT)
    (h : get_outdir fs od d = .ok (fs1, out)) :
    fs1.files = fs.files ∧ fsIsDir fs1 out = true := by
  simp only [get_outdir] at h
  by_cases hcond :
      (!fsExists fs (od ++ [bucketOf d]) || !fsIsDir fs (od ++ [bucketOf d])) = true
  · rw [if_pos hcond] at h
    unfold makedirs at h
    by_cases hmk :
        ((pseq (od ++ [bucketOf d])).any fun q => fs.files.contains q) = true
    · rw [if_pos hmk] at h
      exact absurd h (by simp)
    · rw [if_neg hmk] at h
      injection h with h'
      rw [Prod.mk.injEq] at h'
      obtain ⟨hfs, hout⟩ := h'
      subst hfs hout
      refine ⟨rfl, ?_⟩
      apply List.elem_iff.mpr
      exact List.mem_append_left _ (pseq_self_mem _ (by simp))
  · rw [if_neg hcond] at h
    injection h with h'
    rw [Prod.mk.injEq] at h'
    obtain ⟨hfs, hout⟩ := h'
    subst hfs hout
    simp only [Bool.or_eq_true, Bool.not_eq_true', not_or, Bool.not_eq_false] at hcond
    exact ⟨rfl, hcond.2⟩

/-- When the bucket already exists as a directory, _get_outdir changes
nothing and returns it. -/
theorem get_outdir_of_isdir (fs : FS) (od : FPath) (d : DT)
    (h : fsIsDir fs (od ++ [bucketOf d]) = true) :
    get_outdir fs od d = .ok (fs, od ++ [bucketOf d]) := by
  simp [get_outdir, fsExists, h]

/-- C4: placement never overwrites and is idempotent.  A successful
bucket lookup leaves the file set unchanged; if a file with the placed
base name is already in the bucket, run is a pure no-op returning done;
and from a state without that destination file, one run produces it by
move/copy and a second identical run changes nothing, returns done, and
leaves exactly one file at the destination. -/
theorem C4_place_idempotent (fs fs1 : FS) (path : FPath) (fn : String) (od : FPath)
    (del : Bool) (d : DT)
    (h1 : get_outdir fs od d = .ok (fs1, od ++ [bucketOf d])) :
    (fs1.files = fs.files)
    ∧ (fsIsFile fs1 (od ++ [bucketOf d] ++ [fn]) = true →
        image_run fs path fn od del d = .ok (fs1, true))
    ∧ (fs.files.count (od ++ [bucketOf d] ++ [fn]) = 0 →
        image_run fs path fn od del d =
          .ok (move fs1 path (od ++ [bucketOf d] ++ [fn]) del, true)
        ∧ (move fs1 path (od ++ [bucketOf d] ++ [fn]) del).files.count
            (od ++ [bucketOf d] ++ [fn]) = 1
        ∧ image_run (move fs1 path (od ++ [bucketOf d] ++ [fn]) del) path fn od del d =
            .ok (move fs1 path (od ++ [bucketOf d] ++ [fn]) del, true)) := by
  obtain ⟨hfiles, hdir⟩ := get_outdir_ok_props fs fs1 od (od ++ [bucketOf d]) d h1
  refine ⟨hfiles, ?_, ?_⟩
  · intro hcol
    simp [image_run, h1, hcol, -List.append_assoc]
  · intro hcnt
    have hnotmem : (od ++ [bucketOf d] ++ [fn]) ∉ fs1.files := by
      rw [hfiles]
      exact List.count_eq_zero.mp hcnt
    have hnot : fsIsFile fs1 (od ++ [bucketOf d] ++ [fn]) = false := by
      rw [Bool.eq_false_iff]
      intro hc
      exact hnotmem (List.elem_iff.mp hc)
    have hrun1 : image_run fs path fn od del d =
        .ok (move fs1 path (od ++ [bucketOf d] ++ [fn]) del, true) := by
      simp [image_run, h1, hnot, -List.append_assoc]
    have hcnt1 : (move fs1 path (od ++ [bucketOf d] ++ [fn]) del).files.count
        (od ++ [bucketOf d] ++ [fn]) = 1 := by
      have hz : fs1.files.count (od ++ [bucketOf d] ++ [fn]) = 0 := by
        rw [hfiles]; exact hcnt
      cases del with
      | false =>
        simp [move, List.count_cons_self, hz, -List.append_assoc]
      | true =>
        have hle := (fs1.files.erase_sublist path).count_le (od ++ [bucketOf d] ++ [fn])
        simp [move, List.count_cons_self, -List.append_assoc]
        omega
    have hmem2 : (od ++ [bucketOf d] ++ [fn]) ∈
        (move fs1 path (od ++ [bucketOf d] ++ [fn]) del).files := by
      by_contra hno
      rw [← List.count_eq_zero] at hno
      omega
    have hfile2 : fsIsFile (move fs1 path (od ++ [bucketOf d] ++ [fn]) del)
        (od ++ [bucketOf d] ++ [fn]) = true := List.elem_iff.mpr hmem2
    have hdir2 : fsIsDir (move fs1 path (od ++ [bucketOf d] ++ [fn]) del)
        (od ++ [bucketOf d]) = true := by
      rw [fsIsDir, move_dirs]
      exact hdir
    have hgo2 := get_outdir_of_isdir (move fs1 path (od ++ [bucketOf d] ++ [fn]) del) od d hdir2
    refine ⟨hrun1, hcnt1, ?_⟩
    simp [image_run, hgo2, hfile2, -List.append_assoc]

/-- Witness for C4: placing in/a.jpg into an archive with an existing out
root; the bucket 2020-04 is created, the file lands there once, and the
repeated run is a no-op reporting done. -/
theorem C4_place_idempotent_witness :
    (get_outdir ⟨[["in", "a.jpg"]], [["out"]]⟩ ["out"] ⟨2020, 4, 1, 0, 0, 0⟩ =
      .ok (⟨[["in", "a.jpg"]], [["out"], ["out", "2020-04"], ["out"]]⟩, ["out", "2020-04"]))
    ∧ ([["in", "a.jpg"]] : List FPath).count (["out"] ++ ["2020-04"] ++ ["a.jpg"]) = 0
    ∧ (image_run ⟨[["in", "a.jpg"]], [["out"]]⟩ ["in", "a.jpg"] "a.jpg" ["out"] true
          ⟨2020, 4, 1, 0, 0, 0⟩ =
        .ok (move ⟨[["in", "a.jpg"]], [["out"], ["out", "2020-04"], ["out"]]⟩ ["in", "a.jpg"]
            (["out"] ++ ["2020-04"] ++ ["a.jpg"]) true, true)
      ∧ (move ⟨[["in", "a.jpg"]], [["out"], ["out", "2020-04"], ["out"]]⟩ ["in", "a.jpg"]
            (["out"] ++ ["2020-04"] ++ ["a.jpg"]) true).files.count
          (["out"] ++ ["2020-04"] ++ ["a.jpg"]) = 1
      ∧ image_run (move ⟨[["in", "a.jpg"]], [["out"], ["out", "2020-04"], ["out"]]⟩
            ["in", "a.jpg"] (["out"] ++ ["2020-04"] ++ ["a.jpg"]) true) ["in", "a.jpg"] "a.jpg"
            ["out"] true ⟨2020, 4, 1, 0, 0, 0⟩ =
          .ok (move ⟨[["in", "a.jpg"]], [["out"], ["out", "2020-04"], ["out"]]⟩ ["in", "a.jpg"]
              (["out"] ++ ["2020-04"] ++ ["a.jpg"]) true, true)) :=
  ⟨by decide, by decide,
   (C4_place_idempotent ⟨[["in", "a.jpg"]], [["out"]]⟩
      ⟨[["in", "a.jpg"]], [["out"], ["out", "2020-04"], ["out"]]⟩ ["in", "a.jpg"] "a.jpg"
      ["out"] true ⟨2020, 4, 1, 0, 0, 0⟩ (by decide)).2.2 (by decide)⟩

/-! ## Reaper properties -/

theorem esizeE_pos (e : Entry) : 1 ≤ esizeE e := by
  cases e <;> simp [esizeE]

/-- The bottom-up pass deletes a subtree exactly when it holds no regular
file, and it never changes the number of regular files of a surviving
subtree — combined statement for the size induction over the nested
tree. -/
theorem rm_facts : ∀ k : Nat,
    (∀ e : Entry, esizeE e ≤ k →
      ((recursive_rm_dirs e = none ↔ filesInE e = 0) ∧
        (∀ e1, recursive_rm_dirs e = some e1 → filesInE e1 = filesInE e))) ∧
    (∀ cs : List Entry, esizeL cs ≤ k →
      ((rm_dirs_list cs = [] ↔ filesInL cs = 0) ∧
        filesInL (rm_dirs_list cs) = filesInL cs)) := by
  intro k
  induction k with
  | zero =>
    constructor
    · intro e he
      have := esizeE_pos e
      omega
    · intro cs hcs
      cases cs with
      | nil => simp [rm_dirs_list, filesInL]
      | cons c cs2 =>
        have := esizeE_pos c
        simp [esizeL] at hcs
        omega
  | succ n ih =>
    have hE : ∀ e : Entry, esizeE e ≤ n + 1 →
        ((recursive_rm_dirs e = none ↔ filesInE e = 0) ∧
          (∀ e1, recursive_rm_dirs e = some e1 → filesInE e1 = filesInE e)) := by
      intro e he
      cases e with
      | file nm ft => simp [recursive_rm_dirs, filesInE]
      | dir nm cs =>
        have hcs : esizeL cs ≤ n := by
          simp [esizeE] at he
          omega
        have hl := ih.2 cs hcs
        constructor
        · simp only [recursive_rm_dirs, filesInE]
          cases hrm : rm_dirs_list cs with
          | nil =>
            simp only []
            exact ⟨fun _ => hl.1.mp hrm, fun _ => by simp⟩
          | cons c1 cs1 =>
            simp only []
            constructor
            · intro hc; exact absurd hc (by simp)
            · intro hf
              have : rm_dirs_list cs = [] := hl.1.mpr hf
              rw [hrm] at this
              exact absurd this (by simp)
        · intro e1 h1
          simp only [recursive_rm_dirs] at h1
          cases hrm : rm_dirs_list cs with
          | nil => rw [hrm] at h1; exact absurd h1 (by simp)
          | cons c1 cs1 =>
            rw [hrm] at h1
            have he1 : e1 = Entry.dir nm (c1 :: cs1) := by
              injection h1 with h2
              exact h2.symm
            subst he1
            have := hl.2
            rw [hrm] at this
            simpa [filesInE] using this
    refine ⟨hE, ?_⟩
    intro cs hcs
    cases cs with
    | nil => simp [rm_dirs_list, filesInL]
    | cons c cs2 =>
      have h1 : esizeE c ≤ n + 1 := by
        simp [esizeL] at hcs
        have := esizeE_pos c
        omega
      have h2 : esizeL cs2 ≤ n := by
        simp [esizeL] at hcs
        have := esizeE_pos c
        omega
      have hc := hE c h1
      have hcs2 := ih.2 cs2 h2
      cases hrc : recursive_rm_dirs c with
      | none =>
        have hfc : filesInE c = 0 := hc.1.mp hrc
        simp only [rm_dirs_list, hrc, filesInL]
        constructor
        · rw [hcs2.1, hfc]
          simp
        · rw [hcs2.2, hfc]
          simp
      | some c1 =>
        have hfc : filesInE c1 = filesInE c := hc.2 c1 hrc
        have hnz : filesInE c ≠ 0 := by
          intro hz
          have : recursive_rm_dirs c = none := hc.1.mpr hz
          rw [hrc] at this
          exact absurd this (by simp)
        simp only [rm_dirs_list, hrc, filesInL]
        constructor
        · constructor
          · intro hcon; exact absurd hcon (by simp)
          · intro hs; exfalso; omega
        · rw [hcs2.2, hfc]

/-- The pass leaves a list of only-file children untouched. -/
theorem rm_dirs_list_files_id : ∀ cs : List Entry, (∀ c ∈ cs, isFileE c = true) →
    rm_dirs_list cs = cs := by
  intro cs
  induction cs with
  | nil => intro _; rfl
  | cons c cs2 ih =>
    intro hall
    have hc : isFileE c = true := hall c (List.mem_cons_self _ _)
    cases c with
    | file nm ft =>
      simp only [rm_dirs_list, recursive_rm_dirs]
      rw [ih (fun x hx => hall x (List.mem_cons_of_mem _ hx))]
    | dir nm cs3 => simp [isFileE] at hc

/-- C5: with deletion disabled, reap is an immediate done-reporting no-op;
with deletion enabled it reports done exactly when the root no longer
exists after its pass; the pass deletes a subtree only when no regular
file is anywhere under it and never changes the file count of what
survives; in particular a nonempty directory holding only files is left
unchanged with a false report, while an empty directory is removed with a
done report. -/
theorem C5_reap_done_iff_gone (t : Option Entry) (e : Entry) (nm : String)
    (cs : List Entry) :
    (Directory_run false t = (t, true))
    ∧ ((Directory_run true t).2 = true ↔ (Directory_run true t).1 = none)
    ∧ (recursive_rm_dirs e = none ↔ filesInE e = 0)
    ∧ (∀ e1, recursive_rm_dirs e = some e1 → filesInE e1 = filesInE e)
    ∧ ((∀ c ∈ cs, isFileE c = true) → cs ≠ [] →
        Directory_run true (some (Entry.dir nm cs)) = (some (Entry.dir nm cs), false))
    ∧ (Directory_run true (some (Entry.dir nm [])) = (none, true)) := by
  have hfacts := rm_facts (esizeE e)
  refine ⟨rfl, ?_, (hfacts.1 e le_rfl).1, (hfacts.1 e le_rfl).2, ?_, ?_⟩
  · cases t with
    | none => simp [Directory_run]
    | some e0 =>
      cases hrm : recursive_rm_dirs e0 with
      | none => simp [Directory_run, hrm]
      | some e1 => simp [Directory_run, hrm]
  · intro hall hne
    have hid : rm_dirs_list cs = cs := rm_dirs_list_files_id cs hall
    cases cs with
    | nil => exact absurd rfl hne
    | cons c cs2 =>
      simp only [Directory_run, recursive_rm_dirs, hid]
      rfl
  · simp only [Directory_run, recursive_rm_dirs, rm_dirs_list]
    rfl

/-- Witness for C5: a directory holding one plain file is reported not
done and left as is. -/
theorem C5_reap_done_iff_gone_witness :
    (∀ c ∈ [Entry.file "f" []], isFileE c = true)
    ∧ ([Entry.file "f" []] ≠ [])
    ∧ Directory_run true (some (Entry.dir "d" [Entry.file "f" []])) =
        (some (Entry.dir "d" [Entry.file "f" []]), false) :=
  ⟨by decide, List.cons_ne_nil _ _,
   (C5_reap_done_iff_gone (some (Entry.dir "d" [Entry.file "f" []]))
      (Entry.dir "d" [Entry.file "f" []]) "d" [Entry.file "f" []]).2.2.2.2.1
     (by decide) (List.cons_ne_nil _ _)⟩

/-- C10: whatever the deletion flag, running the Directory handler on a
target that no longer exists reports done immediately and changes
nothing. -/
theorem C10_reap_missing_target : ∀ delete : Bool, Directory_run delete none = (none, true) := by
  intro delete
  cases delete <;> rfl

/-! ## Event-router properties -/

/-- C8 counterexample: the startup scan of a root containing directory A
with one video file f schedules f twice — once from the manual recursion
into A and once more when the outer os.walk reaches A itself — so a path
at depth two gets two scheduler tasks, not exactly one. -/
theorem C8_scan_schedules_twice :
    walk_dir ["R"] (Entry.dir "R" [Entry.dir "A" [Entry.file "f" ["video"]]]) =
      [⟨["R", "A"], DIR_RUN_DELAY⟩, ⟨["R", "A", "f"], 0⟩, ⟨["R", "A", "f"], 0⟩]
    ∧ (walk_dir ["R"] (Entry.dir "R" [Entry.dir "A" [Entry.file "f" ["video"]]])).count
        ⟨["R", "A", "f"], 0⟩ = 2 := by decide

/-- C8 as amended: a single routed event produces at most one submission —
exactly one with the fixed directory delay when the path classifies as a
directory, exactly one with zero delay when it classifies as a file
strategy, and none when no strategy matches; every task the recursive
startup scan submits likewise comes from one such schedule_entry call
(so it carries those same delays), but the scan may submit the same path
several times because its traversal revisits nested entries. -/
theorem C8_router_delays :
    (∀ (p : FPath) (e : Entry),
      (classifyEntry e = some Strategy.directory →
        schedule_entry p e = [⟨p, DIR_RUN_DELAY⟩])
      ∧ (∀ s, classifyEntry e = some s → s ≠ Strategy.directory →
          schedule_entry p e = [⟨p, 0⟩])
      ∧ (classifyEntry e = none → schedule_entry p e = []))
    ∧ (∀ (fuel : Nat) (p : FPath) (e : Entry) (sub : Submission),
        sub ∈ walkDirF fuel p e → ∃ q e1, sub ∈ schedule_entry q e1) := by
  constructor
  · intro p e
    refine ⟨?_, ?_, ?_⟩
    · intro h
      simp [schedule_entry, h, delayOf]
    · intro s h hne
      cases s with
      | directory => exact absurd rfl hne
      | image => simp [schedule_entry, h, delayOf]
      | video => simp [schedule_entry, h, delayOf]
      | audio => simp [schedule_entry, h, delayOf]
    · intro h
      simp [schedule_entry, h]
  · intro fuel
    induction fuel with
    | zero => intro p e sub h; simp [walkDirF] at h
    | succ n ih =>
      intro p e sub h
      simp only [walkDirF, List.mem_flatMap, List.mem_append] at h
      obtain ⟨rdf, hrdf, hsub⟩ := h
      rcases hsub with ⟨d, hd, hin | hin⟩ | ⟨f, hf, hin⟩
      · exact ⟨rdf.1 ++ [entryName d], d, hin⟩
      · exact ih (rdf.1 ++ [entryName d]) d sub hin
      · exact ⟨rdf.1 ++ [entryName f], f, hin⟩

/-- Witness for C8's amended statement: the directory submission of the
scan above comes from a schedule_entry call, and a routed directory event
yields exactly the delayed submission. -/
theorem C8_router_delays_witness :
    ((⟨["R", "A"], DIR_RUN_DELAY⟩ : Submission) ∈
        walkDirF 3 ["R"] (Entry.dir "R" [Entry.dir "A" [Entry.file "f" ["video"]]]))
    ∧ (∃ q e1, (⟨["R", "A"], DIR_RUN_DELAY⟩ : Submission) ∈ schedule_entry q e1) :=
  ⟨by decide,
   C8_router_delays.2 3 ["R"] (Entry.dir "R" [Entry.dir "A" [Entry.file "f" ["video"]]])
     ⟨["R", "A"], DIR_RUN_DELAY⟩ (by decide)⟩

end MediaArchiver
